import Mathlib

/-!
Verification of the book-authoring utilities: shallow embedding of the
page-structure merge (`utils/generate_page_table.py`), the book flattener
(`utils/flatten_book.py`), the real-time compilation monitor
(`utils/compile_realtime.py`), and the chapter-subset generator
(`utils/generate_chapter_subset.py`), together with theorems settling the
spec claims about them.

Strings are modelled by Lean `String` / `List Char`; Python dictionaries
keyed by page number become functions `Nat → Option _`; the file system seen
by the flattener becomes a function from path to optional content (where
`none` models a missing or unreadable file, both of which the code treats
identically by substituting an empty string).
-/

namespace BookUtils

/-- Python `str.strip()` on a list of characters (leading and trailing
whitespace removed). -/
def strip (l : List Char) : List Char :=
  ((l.dropWhile Char.isWhitespace).reverse.dropWhile Char.isWhitespace).reverse

/-- Python `str.rstrip()` (trailing whitespace removed). -/
def rstrip (l : List Char) : List Char :=
  (l.reverse.dropWhile Char.isWhitespace).reverse

/-- Python `str.rstrip('\n')` (only trailing newlines removed). -/
def rstripNl (l : List Char) : List Char :=
  (l.reverse.dropWhile (· = '\n')).reverse

/-- Python `str.lstrip('\n')` (only leading newlines removed). -/
def lstripNl (l : List Char) : List Char :=
  l.dropWhile (· = '\n')

/-- String versions of the strip helpers. -/
def stripS (s : String) : String := String.mk (strip s.data)

def rstripS (s : String) : String := String.mk (rstrip s.data)

def rstripNlS (s : String) : String := String.mk (rstripNl s.data)

def lstripNlS (s : String) : String := String.mk (lstripNl s.data)

/-- Python `pat in s` (substring containment) on character lists. -/
def containsSub (pat : List Char) : List Char → Bool
  | [] => pat.isEmpty
  | c :: cs => pat.isPrefixOf (c :: cs) || containsSub pat cs

/-- Python `sep.split(c)` semantics: split at every occurrence of `c`,
keeping empty pieces, with `[[]]` for the empty input. -/
def splitOnChar (c : Char) : List Char → List (List Char)
  | [] => [[]]
  | x :: xs =>
    let r := splitOnChar c xs
    if x = c then [] :: r
    else
      match r with
      | h :: t => (x :: h) :: t
      | [] => [[x]]

/-- Value of a string of decimal digits, as Python `int` computes it. -/
def natOfDigits (l : List Char) : Nat :=
  l.foldl (fun a c => 10 * a + (c.toNat - 48)) 0

/-- Python `str.isdigit()` restricted to ASCII digits: nonempty and
all characters are decimal digits. -/
def isDigitStr (l : List Char) : Bool :=
  !l.isEmpty && l.all Char.isDigit

/-- ASCII letter, the character class `[A-Za-z]` of the monitor's regex. -/
def isAsciiAlpha (c : Char) : Bool :=
  ('A' ≤ c && c ≤ 'Z') || ('a' ≤ c && c ≤ 'z')

/-- The chapter directive token `\chapterwithsummaryfromfile` shared by the
flattener, the monitor and the subset generator. -/
def tokenChars : List Char := "\\chapterwithsummaryfromfile".data

/-- Python `line.strip().startswith('%')`: the line is commented out. -/
def isComment (line : String) : Bool :=
  ['%'].isPrefixOf (strip line.data)

/-- Python `'\chapterwithsummaryfromfile' in line`. -/
def containsToken (line : String) : Bool :=
  containsSub tokenChars line.data

end BookUtils

namespace CompileRealtime

open BookUtils

/-- `RealTimeCompiler.monitor_log_file`'s mystery-string check: Python
`re.match(r'^\d+show[A-Za-z]+$', line)` applied to the stripped log line.
`\d+` is a maximal nonempty run of digits (no backtracking is possible
because `show` starts with a letter), then the literal `show`, then a
nonempty run of ASCII letters reaching the end of the line. -/
def mysteryMatch (s : String) : Bool :=
  let l := s.data
  let ds := l.takeWhile Char.isDigit
  if ds.isEmpty then false
  else
    match l.dropWhile Char.isDigit with
    | 's' :: 'h' :: 'o' :: 'w' :: rest => !rest.isEmpty && rest.all isAsciiAlpha
    | _ => false

/-- `RealTimeCompiler.count_chapters` on a list of lines (the code iterates
over `content.split('\n')`): counts lines whose stripped content does not
start with `%` and which contain the directive token. -/
def countChaptersLines (lines : List String) : Nat :=
  lines.countP (fun line => !(isComment line) && containsToken line)

/-- `RealTimeCompiler.count_chapters` on the root document content
(`content.split('\n')`). -/
def count_chapters (content : String) : Nat :=
  countChaptersLines ((splitOnChar '\n' content.data).map String.mk)

end CompileRealtime

namespace PageTable

/-! Embedding of `utils/generate_page_table.py`: the per-page merge of the
three auxiliary data sources performed by `generate_page_table`
(the loop over `range(1, total_pages + 1)`).  The dictionaries
`toc_data`, `log_data`, `aux_data` are modelled as functions
`Nat → Option _`; an aux entry whose `type` is not `'chapter_start'`
(one carrying only `references`) is modelled with `chapterStart = false`. -/

/-- One entry of `toc_data` (from `parse_toc_file`). -/
structure TocEntry where
  chapter : Nat
  title : String
  deriving DecidableEq

/-- One entry of `log_data` (from `analyze_log_file`). -/
structure LogEntry where
  chapter : Nat
  chapterName : String
  sectionType : String
  deriving DecidableEq

/-- One entry of `aux_data` (from `parse_aux_file`). -/
structure AuxEntry where
  chapterStart : Bool
  chapter : Nat
  label : String
  deriving DecidableEq

/-- The three page-keyed data sources fed to the merge. -/
structure Sources where
  toc : Nat → Option TocEntry
  log : Nat → Option LogEntry
  aux : Nat → Option AuxEntry

/-- The mutable locals of the merge loop: `current_chapter`,
`current_chapter_name`, `current_section`, `chapter_start_page`,
`section_start_page`. -/
structure MergeState where
  currentChapter : Nat
  currentChapterName : String
  currentSection : String
  chapterStartPage : Nat
  sectionStartPage : Nat
  deriving DecidableEq

/-- Initial values of the merge loop locals. -/
def initState : MergeState :=
  { currentChapter := 0, currentChapterName := "", currentSection := "unknown",
    chapterStartPage := 1, sectionStartPage := 1 }

/-- One row appended to `page_table`. -/
structure PageRow where
  page : Nat
  chapter : Nat
  chapterName : String
  sectionType : String
  pageInChapter : Int
  pageInSection : Int
  hasWarning : Bool
  warningType : String
  deriving DecidableEq

/-- The `page_table.append({...})` record: `chapter` is
`actual_chapter if actual_chapter > 0 else current_chapter`, `chapter_name`
is `actual_chapter_name or current_chapter_name`, and the two positions are
computed from the (already updated) `chapter_start_page` /
`section_start_page`. `s` is the state after this page's updates. -/
def mkRow (page actualChapter : Nat) (actualName actualSection : String)
    (s : MergeState) : PageRow :=
  { page := page
    chapter := if actualChapter > 0 then actualChapter else s.currentChapter
    chapterName := if actualName ≠ "" then actualName else s.currentChapterName
    sectionType := actualSection
    pageInChapter := (page : Int) - s.chapterStartPage + 1
    pageInSection := (page : Int) - s.sectionStartPage + 1
    hasWarning := false
    warningType := "" }

/-- One iteration of the merge loop body for page `page` in state `s`:
contents-table data first, else log data, else cross-reference data, else
carry the current identity forward. Returns the emitted row and the state
after the page. -/
def mergeStep (srcs : Sources) (page : Nat) (s : MergeState) :
    PageRow × MergeState :=
  match srcs.toc page with
  | some t =>
    let s1 := if t.chapter ≠ s.currentChapter then
        { s with chapterStartPage := page, currentChapter := t.chapter,
                 currentChapterName := t.title }
      else s
    let s2 := { s1 with sectionStartPage := page, currentSection := "title_page" }
    (mkRow page t.chapter t.title "title_page" s2, s2)
  | none =>
    match srcs.log page with
    | some l =>
      let s1 := if l.chapter ≠ s.currentChapter then
          { s with chapterStartPage := page, currentChapter := l.chapter,
                   currentChapterName := l.chapterName }
        else s
      let s2 := if l.sectionType ≠ s1.currentSection then
          { s1 with sectionStartPage := page, currentSection := l.sectionType }
        else s1
      (mkRow page l.chapter l.chapterName l.sectionType s2, s2)
    | none =>
      match srcs.aux page with
      | some a =>
        if a.chapterStart then
          let s1 := { s with chapterStartPage := page, currentChapter := a.chapter,
                             currentChapterName := a.label }
          (mkRow page a.chapter a.label s.currentSection s1, s1)
        else
          (mkRow page s.currentChapter s.currentChapterName s.currentSection s, s)
      | none =>
        (mkRow page s.currentChapter s.currentChapterName s.currentSection s, s)

/-- State of the merge loop after processing pages `1..n`. -/
def stateAfter (srcs : Sources) : Nat → MergeState
  | 0 => initState
  | n + 1 => (mergeStep srcs (n + 1) (stateAfter srcs n)).2

/-- The row emitted for page `p` (for `p ≥ 1`). -/
def pageRowAt (srcs : Sources) (p : Nat) : PageRow :=
  (mergeStep srcs p (stateAfter srcs (p - 1))).1

/-- The full `page_table` for pages `1..totalPages`. -/
def pageTable (srcs : Sources) (totalPages : Nat) : List PageRow :=
  (List.range totalPages).map (fun i => pageRowAt srcs (i + 1))

/-- After every loop iteration, the emitted row's chapter and section agree
with the loop's `current_chapter` / `current_section` locals. -/
theorem mergeStep_row_state (srcs : Sources) (page : Nat) (s : MergeState) :
    (mergeStep srcs page s).1.chapter = (mergeStep srcs page s).2.currentChapter ∧
    (mergeStep srcs page s).1.sectionType = (mergeStep srcs page s).2.currentSection ∧
    (mergeStep srcs page s).1.pageInChapter =
      (page : Int) - (mergeStep srcs page s).2.chapterStartPage + 1 ∧
    (mergeStep srcs page s).1.pageInSection =
      (page : Int) - (mergeStep srcs page s).2.sectionStartPage + 1 := by
  unfold mergeStep mkRow
  cases htoc : srcs.toc page with
  | some t =>
    by_cases hc : t.chapter = s.currentChapter <;> simp [hc]
  | none =>
    cases hlog : srcs.log page with
    | some l =>
      by_cases hc : l.chapter = s.currentChapter <;>
        by_cases hs : l.sectionType = s.currentSection <;> simp [hc, hs]
    | none =>
      cases haux : srcs.aux page with
      | some a => by_cases hcs : a.chapterStart <;> simp [hcs]
      | none => simp

/-- Each iteration either moves a start page to the current page or leaves
it unchanged. -/
theorem mergeStep_startPage (srcs : Sources) (page : Nat) (s : MergeState) :
    ((mergeStep srcs page s).2.chapterStartPage = page ∨
      (mergeStep srcs page s).2.chapterStartPage = s.chapterStartPage) ∧
    ((mergeStep srcs page s).2.sectionStartPage = page ∨
      (mergeStep srcs page s).2.sectionStartPage = s.sectionStartPage) := by
  unfold mergeStep
  cases srcs.toc page with
  | some t =>
    by_cases hc : t.chapter = s.currentChapter <;> simp [hc]
  | none =>
    cases srcs.log page with
    | some l =>
      by_cases hc : l.chapter = s.currentChapter <;>
        by_cases hs : l.sectionType = s.currentSection <;> simp [hc, hs]
    | none =>
      cases srcs.aux page with
      | some a => by_cases hcs : a.chapterStart <;> simp [hcs]
      | none => simp

/-- The start-page locals never exceed the last processed page. -/
theorem stateAfter_startPage_le (srcs : Sources) (n : Nat) :
    (stateAfter srcs n).chapterStartPage ≤ max 1 n ∧
    (stateAfter srcs n).sectionStartPage ≤ max 1 n := by
  induction n with
  | zero => simp [stateAfter, initState]
  | succ k ih =>
    have h := mergeStep_startPage srcs (k + 1) (stateAfter srcs k)
    show (mergeStep srcs (k + 1) (stateAfter srcs k)).2.chapterStartPage ≤ _ ∧
      (mergeStep srcs (k + 1) (stateAfter srcs k)).2.sectionStartPage ≤ _
    omega

/-- The row of a page agrees with the loop locals right after that page. -/
theorem pageRowAt_eq_stateAfter (srcs : Sources) (p : Nat) (hp : 1 ≤ p) :
    (pageRowAt srcs p).chapter = (stateAfter srcs p).currentChapter ∧
    (pageRowAt srcs p).sectionType = (stateAfter srcs p).currentSection ∧
    (pageRowAt srcs p).pageInChapter =
      (p : Int) - (stateAfter srcs p).chapterStartPage + 1 ∧
    (pageRowAt srcs p).pageInSection =
      (p : Int) - (stateAfter srcs p).sectionStartPage + 1 := by
  obtain ⟨k, rfl⟩ : ∃ k, p = k + 1 := ⟨p - 1, by omega⟩
  have h := mergeStep_row_state srcs (k + 1) (stateAfter srcs k)
  simpa [pageRowAt, stateAfter] using h

/-- C1: in the page-structure merge, a page with contents-table data takes
the contents-table chapter value whatever the other two sources say; with no
contents-table data, log data decides chapter and section; with neither,
a cross-reference chapter-start entry decides the chapter; and a page with
no data in any source repeats the previous page's chapter and section
identity. -/
theorem merge_precedence (srcs : Sources) (p : Nat) (hp : 1 ≤ p) :
    (∀ t, srcs.toc p = some t → (pageRowAt srcs p).chapter = t.chapter) ∧
    (srcs.toc p = none → ∀ l, srcs.log p = some l →
      (pageRowAt srcs p).chapter = l.chapter ∧
      (pageRowAt srcs p).sectionType = l.sectionType) ∧
    (srcs.toc p = none → srcs.log p = none → ∀ a, srcs.aux p = some a →
      a.chapterStart = true → (pageRowAt srcs p).chapter = a.chapter) ∧
    (2 ≤ p → srcs.toc p = none → srcs.log p = none →
      (srcs.aux p = none ∨ ∃ a, srcs.aux p = some a ∧ a.chapterStart = false) →
      (pageRowAt srcs p).chapter = (pageRowAt srcs (p - 1)).chapter ∧
      (pageRowAt srcs p).sectionType = (pageRowAt srcs (p - 1)).sectionType) := by
  refine ⟨?_, ?_, ?_, ?_⟩
  · intro t ht
    by_cases hc : t.chapter = (stateAfter srcs (p - 1)).currentChapter <;>
      simp [pageRowAt, mergeStep, mkRow, ht, hc]
  · intro htoc l hl
    by_cases hc : l.chapter = (stateAfter srcs (p - 1)).currentChapter <;>
      by_cases hs : l.sectionType = (stateAfter srcs (p - 1)).currentSection <;>
        simp [pageRowAt, mergeStep, mkRow, htoc, hl, hc, hs]
  · intro htoc hlog a ha hcs
    simp [pageRowAt, mergeStep, mkRow, htoc, hlog, ha, hcs]
  · intro hp2 htoc hlog haux
    have hprev := pageRowAt_eq_stateAfter srcs (p - 1) (by omega)
    obtain ⟨k, rfl⟩ : ∃ k, p = k + 2 := ⟨p - 2, by omega⟩
    have hk : k + 2 - 1 = k + 1 := by omega
    rw [hk] at hprev ⊢
    have hrow : pageRowAt srcs (k + 2) =
        (mergeStep srcs (k + 2) (stateAfter srcs (k + 1))).1 := by
      simp [pageRowAt]
    rw [hrow]
    rcases haux with h | ⟨a, ha, hcs⟩
    · simp only [mergeStep, mkRow, htoc, hlog, h, ite_self]
      exact ⟨hprev.1.symm, hprev.2.1.symm⟩
    · simp only [mergeStep, mkRow, htoc, hlog, ha, hcs, ite_self, Bool.false_eq_true,
        if_false]
      exact ⟨hprev.1.symm, hprev.2.1.symm⟩

/-- Witness for `merge_precedence` at a concrete input where all three
sources disagree on page 2. -/
def wSrcs : Sources :=
  { toc := fun p => if p = 2 then some ⟨3, "TocTitle"⟩ else none
    log := fun p => if p = 2 then some ⟨4, "logname", "main"⟩ else none
    aux := fun p => if p = 2 then some ⟨true, 5, "auxlabel"⟩ else none }

theorem merge_precedence_witness :
    (1 : Nat) ≤ 2 ∧ (pageRowAt wSrcs 2).chapter = 3 :=
  ⟨by norm_num,
    (merge_precedence wSrcs 2 (by norm_num)).1 ⟨3, "TocTitle"⟩ rfl⟩

/-- Log-only sources on which the chapter number changes between page 1 and
page 2 while the section label stays `"main"`. -/
def cSrcs : Sources :=
  { toc := fun _ => none
    log := fun p =>
      if p = 1 then some ⟨1, "alpha", "main"⟩
      else if p = 2 then some ⟨2, "beta", "main"⟩ else none
    aux := fun _ => none }

/-- Counterexample to the claim that `page_in_section` equals 1 exactly when
the chapter or section identity changed: on `cSrcs`, page 2 changes chapter
(1 to 2) yet `page_in_section` is 2, because the merge loop only resets
`section_start_page` when the section label itself changes (or on a
contents-table entry), never on a chapter change alone. -/
theorem section_reset_claim_fails :
    (pageRowAt cSrcs 2).chapter = 2 ∧ (pageRowAt cSrcs 1).chapter = 1 ∧
    (pageRowAt cSrcs 2).pageInSection = 2 := by decide

/-- C2 (amended): for every page `p ≥ 2`, `page_in_chapter` is 1 iff the
chapter number differs from the previous page's, or the page has an aux
chapter-start entry and no toc/log data (which unconditionally restarts the
chapter even when the chapter number is unchanged); `page_in_section` is 1
iff the page has contents-table data (unconditional restart), or it has log
data (and no toc data) whose section label differs from the previous page's;
in all other cases each counter is the previous page's counter plus one. -/
theorem counters_reset_iff (srcs : Sources) (p : Nat) (hp : 2 ≤ p) :
    ((pageRowAt srcs p).pageInChapter = 1 ↔
      (pageRowAt srcs p).chapter ≠ (pageRowAt srcs (p - 1)).chapter ∨
      (srcs.toc p = none ∧ srcs.log p = none ∧
        ∃ a, srcs.aux p = some a ∧ a.chapterStart = true)) ∧
    ((pageRowAt srcs p).pageInSection = 1 ↔
      (srcs.toc p).isSome = true ∨
      (srcs.toc p = none ∧ ∃ l, srcs.log p = some l ∧
        l.sectionType ≠ (pageRowAt srcs (p - 1)).sectionType)) ∧
    ((pageRowAt srcs p).pageInChapter = 1 ∨
      (pageRowAt srcs p).pageInChapter = (pageRowAt srcs (p - 1)).pageInChapter + 1) ∧
    ((pageRowAt srcs p).pageInSection = 1 ∨
      (pageRowAt srcs p).pageInSection = (pageRowAt srcs (p - 1)).pageInSection + 1) := by
  obtain ⟨k, rfl⟩ : ∃ k, p = k + 2 := ⟨p - 2, by omega⟩
  have hk : k + 2 - 1 = k + 1 := by omega
  rw [hk]
  have hb := stateAfter_startPage_le srcs (k + 1)
  have hm : max 1 (k + 1) = k + 1 := by omega
  rw [hm] at hb
  have hprev := pageRowAt_eq_stateAfter srcs (k + 1) (by omega)
  have hrow : pageRowAt srcs (k + 2) =
      (mergeStep srcs (k + 2) (stateAfter srcs (k + 1))).1 := by
    simp [pageRowAt]
  rw [hrow]
  obtain ⟨hpc, hps, hppic, hppis⟩ := hprev
  obtain ⟨hcsp, hssp⟩ := hb
  cases htoc : srcs.toc (k + 2) with
  | some t =>
    by_cases hc : t.chapter = (stateAfter srcs (k + 1)).currentChapter
    · simp only [mergeStep, mkRow, htoc, hc, ne_eq, not_true_eq_false, if_false, ite_self]
      refine ⟨iff_of_false (by omega) ?_, iff_of_true (by omega) (by simp [htoc]),
        Or.inr (by rw [hppic]; omega), Or.inl (by omega)⟩
      rw [hpc]
      simp [htoc]
    · simp only [mergeStep, mkRow, htoc, hc, ne_eq, not_false_eq_true, if_true, ite_self]
      refine ⟨iff_of_true (by omega) (Or.inl ?_), iff_of_true (by omega) (by simp [htoc]),
        Or.inl (by omega), Or.inl (by omega)⟩
      rw [hpc]
      exact hc
  | none =>
    cases hlog : srcs.log (k + 2) with
    | some l =>
      by_cases hc : l.chapter = (stateAfter srcs (k + 1)).currentChapter <;>
        by_cases hsec : l.sectionType = (stateAfter srcs (k + 1)).currentSection
      · simp only [mergeStep, mkRow, htoc, hlog, hc, hsec, ne_eq, not_true_eq_false,
          if_false, ite_self]
        refine ⟨iff_of_false (by omega) ?_, iff_of_false (by omega) ?_,
          Or.inr (by rw [hppic]; omega), Or.inr (by rw [hppis]; omega)⟩
        · rw [hpc]
          simp [htoc, hlog]
        · rw [hps]
          simp [htoc, hlog, hsec]
      · simp only [mergeStep, mkRow, htoc, hlog, hc, hsec, ne_eq, not_true_eq_false,
          not_false_eq_true, if_false, if_true, ite_self]
        refine ⟨iff_of_false (by omega) ?_, iff_of_true (by omega) ?_,
          Or.inr (by rw [hppic]; omega), Or.inl (by omega)⟩
        · rw [hpc]
          simp [htoc, hlog]
        · refine Or.inr ⟨by simp [htoc], l, by simp [hlog], ?_⟩
          rw [hps]
          exact hsec
      · simp only [mergeStep, mkRow, htoc, hlog, hc, hsec, ne_eq, not_true_eq_false,
          not_false_eq_true, if_false, if_true, ite_self]
        refine ⟨iff_of_true (by omega) (Or.inl ?_), iff_of_false (by omega) ?_,
          Or.inl (by omega), Or.inr (by rw [hppis]; omega)⟩
        · rw [hpc]
          exact hc
        · rw [hps]
          simp [htoc, hlog, hsec]
      · simp only [mergeStep, mkRow, htoc, hlog, hc, hsec, ne_eq, not_false_eq_true,
          if_true, ite_self]
        refine ⟨iff_of_true (by omega) (Or.inl ?_), iff_of_true (by omega) ?_,
          Or.inl (by omega), Or.inl (by omega)⟩
        · rw [hpc]
          exact hc
        · refine Or.inr ⟨by simp [htoc], l, by simp [hlog], ?_⟩
          rw [hps]
          exact hsec
    | none =>
      cases haux : srcs.aux (k + 2) with
      | some a =>
        by_cases hcs : a.chapterStart = true
        · simp only [mergeStep, htoc, hlog, haux]
          rw [if_pos hcs]
          simp only [mkRow, ite_self]
          refine ⟨iff_of_true (by omega)
              (Or.inr ⟨by simp [htoc], by simp [hlog], a, by simp [haux], hcs⟩),
            iff_of_false (by omega) ?_,
            Or.inl (by omega), Or.inr (by rw [hppis]; omega)⟩
          simp [htoc, hlog]
        · simp only [mergeStep, htoc, hlog, haux]
          rw [if_neg hcs]
          simp only [mkRow, ite_self]
          refine ⟨iff_of_false (by omega) ?_, iff_of_false (by omega) (by simp [htoc, hlog]),
            Or.inr (by rw [hppic]; omega), Or.inr (by rw [hppis]; omega)⟩
          rw [hpc]
          simp [htoc, hlog, haux, hcs]
      | none =>
        simp only [mergeStep, mkRow, htoc, hlog, haux, ite_self]
        refine ⟨iff_of_false (by omega) ?_, iff_of_false (by omega) (by simp [htoc, hlog]),
          Or.inr (by rw [hppic]; omega), Or.inr (by rw [hppis]; omega)⟩
        rw [hpc]
        simp [haux]

/-- Witness for `counters_reset_iff` at `cSrcs`, page 2: log data with an
unchanged section label and a changed chapter number gives
`page_in_chapter = 1` and `page_in_section = 2`. -/
theorem counters_reset_iff_witness :
    (2 : Nat) ≤ 2 ∧ (pageRowAt cSrcs 2).pageInChapter = 1 ∧
      (pageRowAt cSrcs 2).pageInSection = 2 :=
  ⟨by norm_num,
    ((counters_reset_iff cSrcs 2 (by norm_num)).1).2
      (Or.inl (by decide)),
    by
      rcases (counters_reset_iff cSrcs 2 (by norm_num)).2.2.2 with h | h
      · exact absurd ((counters_reset_iff cSrcs 2 (by norm_num)).2.1.1 h) (by decide)
      · rw [h]; decide⟩

end PageTable

namespace FlattenBook

open BookUtils

/-! Embedding of `utils/flatten_book.py`.  The file system is a function
from (repository-root-relative) path to optional content; `none` models a
file whose read raises (missing or unreadable), which `read_text_file`
turns into the empty string.  Python's non-raw triple-quoted template in
`build_title_page_block` is reproduced with its escape sequences
interpreted exactly as the Python lexer does (`\t` tab, `\b` backspace,
`\v` vertical tab, `\f` form feed, `\r` carriage return; invalid escapes
such as `\s`, `\p`, `\c`, `\e` keep their backslash). -/

/-- The flattener's view of the file system. -/
def FS : Type := String → Option String

/-- `read_text_file`: file content, or `""` when the read raises. -/
def read_text_file (fs : FS) (path : String) : String :=
  (fs path).getD ""

/-- `Path.exists()` for the optional-fragment checks. -/
def fileExists (fs : FS) (path : String) : Bool :=
  (fs path).isSome

/-- Python `str.splitlines()` for newline-separated content: like
splitting on `'\n'` but without the final empty piece a trailing newline
produces. -/
def splitLines (s : String) : List String :=
  let parts := (splitOnChar '\n' s.data).map String.mk
  if parts.getLast? = some "" then parts.dropLast else parts

/-- `read_first_nonempty_line`'s scan: first stripped line that is nonempty
and not a pure comment. -/
def firstNonemptyLine : List String → String
  | [] => ""
  | raw :: rest =>
    let line := stripS raw
    if line = "" || ['%'].isPrefixOf line.data then firstNonemptyLine rest
    else line

/-- `read_first_nonempty_line`: `""` when the open raises. -/
def read_first_nonempty_line (fs : FS) (path : String) : String :=
  match fs path with
  | none => ""
  | some content => firstNonemptyLine (splitLines content)

/-- `ChapterRef` (label, directory, originating line index). -/
structure ChapterRef where
  label : Option String
  directory : String
  lineIndex : Nat
  deriving DecidableEq

/-- Scan up to the character `stop`: returns the (possibly empty) prefix
before the first occurrence and the suffix after it, or `none` when `stop`
does not occur.  This is how the regex pieces `([^\]]+)\]` and `([^\}]+)\}`
consume input (the character class cannot cross the closing character, so
greedy matching deterministically stops at the first one). -/
def takeUntil (stop : Char) : List Char → Option (List Char × List Char)
  | [] => none
  | c :: cs =>
    if c = stop then some ([], cs)
    else
      match takeUntil stop cs with
      | some (pre, post) => some (c :: pre, post)
      | none => none

/-- Attempt of the flattener's directive regex
`\\chapterwithsummaryfromfile(?:\[([^\]]+)\])?\{([^\}]+)\}` at the position
right after the token: an optional nonempty bracketed label followed by a
mandatory nonempty braced directory.  When the next character is `[` the
optional group must succeed (the zero-width alternative would need `{` at
the same position), mirroring the regex's backtracking. -/
def matchDirectiveTail (l : List Char) : Option (Option (List Char) × List Char) :=
  match l with
  | '[' :: rest =>
    match takeUntil ']' rest with
    | some (lab, rest2) =>
      if lab.isEmpty then none
      else
        match rest2 with
        | '{' :: rest3 =>
          match takeUntil '}' rest3 with
          | some (dir, _) => if dir.isEmpty then none else some (some lab, dir)
          | none => none
        | _ => none
    | none => none
  | '{' :: rest3 =>
    match takeUntil '}' rest3 with
    | some (dir, _) => if dir.isEmpty then none else some (none, dir)
    | none => none
  | _ => none

/-- `re.search` of the flattener's directive regex: try the pattern at each
position left to right. -/
def searchDirective : List Char → Option (Option (List Char) × List Char)
  | [] => none
  | c :: cs =>
    if tokenChars.isPrefixOf (c :: cs) then
      match matchDirectiveTail ((c :: cs).drop tokenChars.length) with
      | some r => some r
      | none => searchDirective cs
    else searchDirective cs

/-- The flattener's directive match on one line, as `(label?, directory)`. -/
def flattenDirectiveMatch (line : String) : Option (Option String × String) :=
  (searchDirective line.data).map (fun r => (r.1.map String.mk, String.mk r.2))

/-- The line scan of `parse_main_for_chapters` starting at line index `i`:
commented lines are skipped outright; the first remaining line containing
the token fixes the header boundary; each token line contributes a
`ChapterRef` when the directive regex matches it. -/
def chapterScan : Nat → List String → Option Nat × List ChapterRef
  | _, [] => (none, [])
  | i, line :: rest =>
    if isComment line then chapterScan (i + 1) rest
    else if containsToken line then
      let r := chapterScan (i + 1) rest
      (some i,
        match flattenDirectiveMatch line with
        | some (lab, dir) => ⟨lab, dir, i⟩ :: r.2
        | none => r.2)
    else chapterScan (i + 1) rest

/-- `parse_main_for_chapters`: header lines (everything before the first
un-commented directive line, or the whole file when there is none) and the
chapter references in file order. -/
def parse_main_for_chapters (content : String) : List String × List ChapterRef :=
  let lines := splitLines content
  let r := chapterScan 0 lines
  (lines.take (r.1.getD lines.length), r.2)

/-- Match of `^\\input\{([^\}]+)\}\s*$` against a (stripped) line. -/
def inputLineMatch (l : List Char) : Option (List Char) :=
  if "\\input".data.isPrefixOf l then
    match l.drop 6 with
    | '{' :: rest =>
      match takeUntil '}' rest with
      | some (name, rest2) =>
        if name.isEmpty then none
        else if rest2.all Char.isWhitespace then some name else none
      | none => none
    | _ => none
  else none

/-- The front-matter names inlined by `inline_if_root_input`. -/
def frontMatterNames : List String := ["intro", "prologue", "titlepage"]

/-- `inline_if_root_input`: inline `intro`/`prologue`/`titlepage` inputs,
never `preamble`, and only when the referenced file has content. -/
def inline_if_root_input (fs : FS) (line : String) : Option String :=
  match inputLineMatch (strip line.data) with
  | none => none
  | some nameChars =>
    let name := String.mk nameChars
    if name = "preamble" then none
    else if name ∈ frontMatterNames then
      let content := read_text_file fs (name ++ ".tex")
      if content ≠ "" then
        some ("% BEGIN INLINE " ++ name ++ ".tex\n" ++ rstripS content ++
          "\n% END INLINE " ++ name ++ ".tex")
      else none
    else none

/-- `inline_tex_file`: content wrapped in BEGIN/END markers, or `""` for a
missing/empty file. -/
def inline_tex_file (fs : FS) (path : String) : String :=
  let content := read_text_file fs path
  if content ≠ "" then
    "% BEGIN INLINE " ++ path ++ "\n" ++ rstripS content ++
      "\n% END INLINE " ++ path ++ "\n"
  else ""

/-- `build_title_page_block`, with the Python escape sequences of the
non-raw triple-quoted template interpreted (`\x09` tab from `\t`, `\x08`
backspace from `\b`, `\x0b` vertical tab from `\v`, `\x0c` form feed from
`\f`, `\x0d` carriage return from `\r`). -/
def build_title_page_block (titleTex : String) : String :=
  "\n% --- PAGE 1: Dedicated Title Page (big, centered) ---\n\x09hispagestyle\x7bempty\x7d\n\x08egin\x7bcenter\x7d\n    \x0bspace*\x7b\x0cill\x7d\n    \x7b\x0contsize\x7b48pt\x7d\x7b62pt\x7d\\selectfont\x08fseries\x0daggedright\n    \\parbox\x7b0.8\x09extwidth\x7d\x7b\\centering"
    ++ "\n" ++ rstripNlS titleTex ++ "\n"
    ++ "    \x7d\x7d\n    \x0bspace*\x7b\x0cill\x7d\n\\end\x7bcenter\x7d\n\\clearpage\n"

/-- `build_page3_intro_block`: the combined title/summary/topicmap/quote
page; topicmap and quote blocks appear only when their content is
nonempty. -/
def build_page3_intro_block (titleTex summaryTex topicmapTex quoteTex : String) :
    String :=
  let body : List String :=
    ["% --- PAGE 3: Title + Summary + Topicmap + Quote ---",
     "\\thispagestyle\x7bempty\x7d",
     "\\begin\x7bcenter\x7d",
     "    \\vspace*\x7b\\fill\x7d",
     "    \x7b\\Huge \\bfseries ",
     rstripS titleTex,
     "    \x7d",
     "",
     "    \\vspace\x7b2em\x7d",
     "    \\begin\x7bminipage\x7d\x7b0.8\\textwidth\x7d",
     "        \x7b\\fontsize\x7b13pt\x7d\x7b18pt\x7d\\selectfont\\color\x7bblack\x7d",
     "        \\justifying",
     rstripS summaryTex,
     "        \x7d",
     "    \\end\x7bminipage\x7d",
     "",
     "    \\vspace\x7b2em\x7d",
     "    \\chapterseparator",
     "    \\vspace\x7b2em\x7d"] ++
    (if topicmapTex ≠ "" then
      ["    \\begin\x7bminipage\x7d\x7b0.7\\textwidth\x7d",
       "        \\centering",
       rstripS topicmapTex,
       "    \\end\x7bminipage\x7d"]
     else []) ++
    ["    \\vfill"] ++
    (if quoteTex ≠ "" then
      ["    \\vspace\x7b2em\x7d",
       "    \\begin\x7bminipage\x7d\x7b0.8\\textwidth\x7d",
       "        \\centering \\itshape",
       rstripS quoteTex,
       "    \\end\x7bminipage\x7d"]
     else []) ++
    ["    \\vspace*\x7b\\fill\x7d",
     "\\end\x7bcenter\x7d",
     "\\clearpage"]
  String.intercalate "\n" body ++ "\n"

/-- Path of a fragment file inside a chapter directory. -/
def fragPath (dir name : String) : String := dir ++ "/" ++ name

/-- Output lines of the chapter loop body up to (and excluding) the
sidenote page. -/
def chapterPre (fs : FS) (ch : ChapterRef) : List String :=
  let titleTex := inline_tex_file fs (fragPath ch.directory "title.tex")
  [""] ++
  ["% ===== CHAPTER " ++ ch.directory ++ " ====="] ++
  ["\\refstepcounter\x7bchapter\x7d"] ++
  (match ch.label with
   | some lab => if lab ≠ "" then ["\\label\x7b" ++ lab ++ "\x7d"] else []
   | none => []) ++
  ["\\phantomsection",
   "% --- Verso empty page before chapter ---",
   "\\clearpage",
   "\\thispagestyle\x7bempty\x7d",
   "\\mbox\x7b\x7d",
   "\\clearpage",
   build_title_page_block titleTex]

/-- Output lines of the sidenote slot: the inlined sidenote fragment when
the file exists, otherwise an unnumbered blank page. -/
def sidenotePage (fs : FS) (dir : String) : List String :=
  ["% --- PAGE 2: Sidenote (or empty) ---"] ++
  (if fileExists fs (fragPath dir "sidenote.tex") then
    [inline_tex_file fs (fragPath dir "sidenote.tex")]
   else
    ["\\thispagestyle\x7bempty\x7d", "\\mbox\x7b\x7d"]) ++
  ["\\clearpage"]

/-- Output lines of the chapter loop body after the sidenote page: ToC
entry, overview page, historical/main/optional blocks and the technical
page. -/
def chapterPost (fs : FS) (ch : ChapterRef) : List String :=
  let dir := ch.directory
  let titleFirst := read_first_nonempty_line fs (fragPath dir "title.tex")
  let summaryFirst := read_first_nonempty_line fs (fragPath dir "summary.tex")
  let titleTex := inline_tex_file fs (fragPath dir "title.tex")
  let summaryTex := inline_tex_file fs (fragPath dir "summary.tex")
  let topicmapTex := read_text_file fs (fragPath dir "topicmap.tex")
  let quoteTex := read_text_file fs (fragPath dir "quote.tex")
  ["% --- Table of Contents entry (title + summary first lines) ---",
   "\\addcontentsline\x7btoc\x7d\x7bchapter\x7d\x7b%",
   "  \\protect\\numberline\x7b\\thechapter\x7d" ++ titleFirst ++ "\\\\",
   "  \x7b\\normalfont\\small\\textit\x7b\\textcolor\x7bsummarycolor\x7d\x7b" ++
     summaryFirst ++ "\x7d\x7d\x7d%",
   "\x7d",
   "\\clearpage",
   build_page3_intro_block titleTex summaryTex topicmapTex quoteTex,
   "% --- PAGES 4-8: Historical + Main + Optional ---",
   "\\chaptermark\x7b" ++ titleFirst ++ "\x7d",
   "\x7b\\LARGE \\bfseries ",
   rstripS titleTex,
   "\x7d",
   inline_tex_file fs (fragPath dir "historical.tex"),
   inline_tex_file fs (fragPath dir "main.tex")] ++
  (if fileExists fs (fragPath dir "phenomenon_extra.tex") then
    [inline_tex_file fs (fragPath dir "phenomenon_extra.tex")] else []) ++
  (if fileExists fs (fragPath dir "joke.tex") then
    [inline_tex_file fs (fragPath dir "joke.tex")] else []) ++
  (if fileExists fs (fragPath dir "exercises.tex") then
    [inline_tex_file fs (fragPath dir "exercises.tex")] else []) ++
  (if fileExists fs (fragPath dir "cartoon.tex") then
    [inline_tex_file fs (fragPath dir "cartoon.tex")] else []) ++
  (if fileExists fs (fragPath dir "imagefigure.tex") then
    [inline_tex_file fs (fragPath dir "imagefigure.tex")] else []) ++
  ["% --- PAGE 9: Technical ---",
   "\\newpage",
   inline_tex_file fs (fragPath dir "technical.tex")]

/-- All output lines of the loop body for one chapter. -/
def chapterOutput (fs : FS) (ch : ChapterRef) : List String :=
  chapterPre fs ch ++ sidenotePage fs ch.directory ++ chapterPost fs ch

/-- Insertion into a list sorted by `lineIndex` (for
`sorted(chapters, key=lambda c: c.line_index)`). -/
def insertChapter (c : ChapterRef) : List ChapterRef → List ChapterRef
  | [] => [c]
  | d :: ds =>
    if c.lineIndex ≤ d.lineIndex then c :: d :: ds else d :: insertChapter c ds

/-- Sort of the chapter list by stored line position. -/
def sortChapters : List ChapterRef → List ChapterRef
  | [] => []
  | c :: cs => insertChapter c (sortChapters cs)

/-- `generate_flattened`, returning the written file content: banner line,
header lines with front-matter inputs inlined, the per-chapter blocks in
line order, and the closing `\end{document}` line; all joined with
newlines plus a final newline. -/
def generate_flattened (fs : FS) (mainContent : String) : String :=
  let hd := parse_main_for_chapters mainContent
  let headerOut := hd.1.map (fun line => (inline_if_root_input fs line).getD line)
  let body := (sortChapters hd.2).flatMap (fun ch => chapterOutput fs ch)
  let out := ["% === FLATTENED BOOK GENERATED BY utils/flatten_book.py ==="] ++
    headerOut ++ body ++ ["\\end\x7bdocument\x7d"]
  String.intercalate "\n" out ++ "\n"

/-- On a document whose lines are all commented or token-free, the scan
finds neither a first-chapter index nor any chapter. -/
theorem chapterScan_no_directive (lines : List String) (i : Nat)
    (h : ∀ line ∈ lines, isComment line = true ∨ containsToken line = false) :
    chapterScan i lines = (none, []) := by
  induction lines generalizing i with
  | nil => rfl
  | cons line rest ih =>
    have hline := h line (by simp)
    have hrest : ∀ l ∈ rest, isComment l = true ∨ containsToken l = false :=
      fun l hl => h l (by simp [hl])
    unfold chapterScan
    by_cases hc : isComment line = true
    · rw [if_pos hc]
      exact ih (i + 1) hrest
    · rcases hline with hcl | ht
      · exact absurd hcl hc
      · rw [if_neg hc, if_neg (by simp [ht])]
        exact ih (i + 1) hrest

/-- C4: a root document with no (un-commented) chapter directive line
parses to the empty chapter list and a header consisting of every line of
the file; the parse is a total function, so this case raises nothing. -/
theorem no_directive_full_header (content : String)
    (h : ∀ line ∈ splitLines content,
      isComment line = true ∨ containsToken line = false) :
    parse_main_for_chapters content = (splitLines content, []) := by
  simp only [parse_main_for_chapters]
  rw [chapterScan_no_directive _ 0 h]
  simp

/-- Witness input for `no_directive_full_header`: a two-line document with
no directive. -/
def wContentC4 : String := "hello\nworld"

theorem no_directive_full_header_witness :
    (∀ line ∈ splitLines wContentC4,
      isComment line = true ∨ containsToken line = false) ∧
    parse_main_for_chapters wContentC4 = (["hello", "world"], []) :=
  ⟨by decide, by
    rw [no_directive_full_header wContentC4 (by decide)]
    decide⟩

/-- All indices produced by the scan are at least the starting index. -/
theorem chapterScan_idx_ge (lines : List String) (j : Nat) :
    (∀ m, (chapterScan j lines).1 = some m → j ≤ m) ∧
    (∀ c ∈ (chapterScan j lines).2, j ≤ c.lineIndex) := by
  induction lines generalizing j with
  | nil => simp [chapterScan]
  | cons line rest ih =>
    unfold chapterScan
    by_cases hc : isComment line = true
    · rw [if_pos hc]
      refine ⟨fun m hm => ?_, fun c hcm => ?_⟩
      · have := (ih (j + 1)).1 m hm; omega
      · have := (ih (j + 1)).2 c hcm; omega
    · rw [if_neg hc]
      by_cases ht : containsToken line = true
      · rw [if_pos ht]
        refine ⟨fun m hm => ?_, fun c hcm => ?_⟩
        · simp at hm; omega
        · cases hmatch : flattenDirectiveMatch line with
          | some r =>
            simp only [hmatch, List.mem_cons] at hcm
            rcases hcm with rfl | hcm
            · simp
            · have := (ih (j + 1)).2 c hcm; omega
          | none =>
            simp only [hmatch] at hcm
            have := (ih (j + 1)).2 c hcm; omega
      · rw [if_neg ht]
        refine ⟨fun m hm => ?_, fun c hcm => ?_⟩
        · have := (ih (j + 1)).1 m hm; omega
        · have := (ih (j + 1)).2 c hcm; omega

/-- A commented line contributes neither the first-chapter index nor a
chapter reference. -/
theorem chapterScan_comment_skipped (lines : List String) (j i : Nat)
    (hi : i < lines.length)
    (hc : isComment (lines.get ⟨i, hi⟩) = true) :
    (chapterScan j lines).1 ≠ some (j + i) ∧
    ∀ c ∈ (chapterScan j lines).2, c.lineIndex ≠ j + i := by
  induction lines generalizing j i with
  | nil => simp at hi
  | cons line rest ih =>
    cases i with
    | zero =>
      simp only [List.get] at hc
      unfold chapterScan
      rw [if_pos hc]
      refine ⟨fun hm => ?_, fun c hcm => ?_⟩
      · have := (chapterScan_idx_ge rest (j + 1)).1 (j + 0) hm; omega
      · have := (chapterScan_idx_ge rest (j + 1)).2 c hcm; omega
    | succ k =>
      have hk : k < rest.length := by simpa using hi
      have hc' : isComment (rest.get ⟨k, hk⟩) = true := by
        simpa using hc
      have hrec := ih (j + 1) k hk hc'
      have harith : j + 1 + k = j + (k + 1) := by omega
      rw [harith] at hrec
      unfold chapterScan
      by_cases hcl : isComment line = true
      · rw [if_pos hcl]; exact hrec
      · rw [if_neg hcl]
        by_cases ht : containsToken line = true
        · rw [if_pos ht]
          refine ⟨fun hm => ?_, fun c hcm => ?_⟩
          · simp at hm
          · cases hmatch : flattenDirectiveMatch line with
            | some r =>
              simp only [hmatch, List.mem_cons] at hcm
              rcases hcm with rfl | hcm
              · simp
              · exact hrec.2 c hcm
            | none =>
              simp only [hmatch] at hcm
              exact hrec.2 c hcm
        · rw [if_neg ht]; exact hrec

/-- Removing a commented line does not change the monitor's chapter count. -/
theorem countChaptersLines_eraseIdx (lines : List String) (i : Nat)
    (hi : i < lines.length)
    (hc : isComment (lines.get ⟨i, hi⟩) = true) :
    CompileRealtime.countChaptersLines (lines.eraseIdx i) =
      CompileRealtime.countChaptersLines lines := by
  induction lines generalizing i with
  | nil => simp at hi
  | cons line rest ih =>
    cases i with
    | zero =>
      simp only [List.get] at hc
      simp [CompileRealtime.countChaptersLines, List.eraseIdx, List.countP_cons, hc]
    | succ k =>
      have hk : k < rest.length := by simpa using hi
      have hc' : isComment (rest.get ⟨k, hk⟩) = true := by simpa using hc
      simp only [List.eraseIdx, CompileRealtime.countChaptersLines, List.countP_cons]
      have := ih k hk hc'
      simp only [CompileRealtime.countChaptersLines] at this
      omega

/-- C5: a line whose stripped content begins with `%` is skipped entirely:
it yields no `ChapterRef`, it is never the first-chapter boundary of
`parse_main_for_chapters`, and `count_chapters` of the monitor is unchanged
by its removal — even if the line contains the directive token. Stated over
the line list a root document splits into. -/
theorem comment_line_skipped (lines : List String) (i : Nat)
    (hi : i < lines.length)
    (hc : isComment (lines.get ⟨i, hi⟩) = true) :
    (∀ c ∈ (chapterScan 0 lines).2, c.lineIndex ≠ i) ∧
    (chapterScan 0 lines).1 ≠ some i ∧
    CompileRealtime.countChaptersLines (lines.eraseIdx i) =
      CompileRealtime.countChaptersLines lines := by
  have h := chapterScan_comment_skipped lines 0 i hi hc
  simp only [Nat.zero_add] at h
  exact ⟨h.2, h.1, countChaptersLines_eraseIdx lines i hi hc⟩

/-- Witness input for `comment_line_skipped`: a commented directive line
followed by a real one. -/
def wLinesC5 : List String :=
  ["% \\chapterwithsummaryfromfile[ch:x]\x7bdirx\x7d",
   "\\chapterwithsummaryfromfile[ch:y]\x7bdiry\x7d"]

theorem comment_line_skipped_witness :
    (0 < wLinesC5.length ∧ isComment (wLinesC5.get ⟨0, by decide⟩) = true) ∧
    (∀ c ∈ (chapterScan 0 wLinesC5).2, c.lineIndex ≠ 0) ∧
    (chapterScan 0 wLinesC5).1 ≠ some 0 ∧
    CompileRealtime.countChaptersLines (wLinesC5.eraseIdx 0) =
      CompileRealtime.countChaptersLines wLinesC5 :=
  ⟨⟨by decide, by decide⟩, comment_line_skipped wLinesC5 0 (by decide) (by decide)⟩

/-- C7: when `sidenote.tex` is absent from a chapter directory, the
sidenote slot of the rendered template is a blank page with empty page
style and an empty body (`\thispagestyle{empty}` and `\mbox{}`), and that
page still appears in the chapter output between the preceding pages and
the rest of the template (it is neither an error nor omitted). -/
theorem missing_sidenote_blank_page (fs : FS) (ch : ChapterRef)
    (h : fs (fragPath ch.directory "sidenote.tex") = none) :
    sidenotePage fs ch.directory =
      ["% --- PAGE 2: Sidenote (or empty) ---",
       "\\thispagestyle\x7bempty\x7d", "\\mbox\x7b\x7d", "\\clearpage"] ∧
    chapterOutput fs ch =
      (chapterPre fs ch ++ ["% --- PAGE 2: Sidenote (or empty) ---"]) ++
        ["\\thispagestyle\x7bempty\x7d", "\\mbox\x7b\x7d"] ++
        (["\\clearpage"] ++ chapterPost fs ch) := by
  have hs : sidenotePage fs ch.directory =
      ["% --- PAGE 2: Sidenote (or empty) ---",
       "\\thispagestyle\x7bempty\x7d", "\\mbox\x7b\x7d", "\\clearpage"] := by
    simp [sidenotePage, fileExists, h]
  refine ⟨hs, ?_⟩
  simp [chapterOutput, hs]

/-- Witness input for `missing_sidenote_blank_page`: the empty file system
and a demo chapter. -/
def wFs0 : FS := fun _ => none

def wCh0 : ChapterRef := ⟨none, "01_Demo", 0⟩

theorem missing_sidenote_blank_page_witness :
    wFs0 (fragPath "01_Demo" "sidenote.tex") = none ∧
    sidenotePage wFs0 "01_Demo" =
      ["% --- PAGE 2: Sidenote (or empty) ---",
       "\\thispagestyle\x7bempty\x7d", "\\mbox\x7b\x7d", "\\clearpage"] :=
  ⟨rfl, (missing_sidenote_blank_page wFs0 wCh0 rfl).1⟩

/-- Splitting at a separator character absent from both suffixes is
injective. -/
theorem append_sep_inj (l1 : List Char) : ∀ (l2 r1 r2 : List Char),
    ('/' : Char) ∉ r1 → ('/' : Char) ∉ r2 →
    l1 ++ '/' :: r1 = l2 ++ '/' :: r2 → l1 = l2 ∧ r1 = r2 := by
  induction l1 with
  | nil =>
    intro l2 r1 r2 h1 h2 h
    cases l2 with
    | nil => simpa using h
    | cons c cs =>
      simp only [List.nil_append, List.cons_append, List.cons.injEq] at h
      have hm : ('/' : Char) ∈ r1 := by
        rw [h.2]
        exact List.mem_append_right cs (List.mem_cons_self '/' r2)
      exact absurd hm h1
  | cons c cs ih =>
    intro l2 r1 r2 h1 h2 h
    cases l2 with
    | nil =>
      simp only [List.cons_append, List.nil_append, List.cons.injEq] at h
      have hm : ('/' : Char) ∈ r2 := by
        rw [← h.2]
        exact List.mem_append_right cs (List.mem_cons_self '/' r1)
      exact absurd hm h2
    | cons d ds =>
      simp only [List.cons_append, List.cons.injEq] at h
      obtain ⟨rfl, h'⟩ := h
      obtain ⟨hl, hr⟩ := ih ds r1 r2 h1 h2 h'
      exact ⟨by rw [hl], hr⟩

/-- A fragment path determines its directory and (slash-free) file name. -/
theorem fragPath_inj (d1 d2 n1 n2 : String)
    (h1 : ('/' : Char) ∉ n1.data) (h2 : ('/' : Char) ∉ n2.data)
    (h : fragPath d1 n1 = fragPath d2 n2) : d1 = d2 ∧ n1 = n2 := by
  have hd : (d1 ++ "/" ++ n1).data = (d2 ++ "/" ++ n2).data := by
    unfold fragPath at h
    rw [h]
  simp only [String.data_append] at hd
  have hd' : d1.data ++ '/' :: n1.data = d2.data ++ '/' :: n2.data := by
    simpa using hd
  obtain ⟨hl, hr⟩ := append_sep_inj d1.data d2.data n1.data n2.data h1 h2 hd'
  constructor
  · cases d1; cases d2; exact congrArg String.mk hl
  · cases n1; cases n2; exact congrArg String.mk hr

/-- The fragment file names whose existence the chapter renderer tests. -/
def optionalNames : List String :=
  ["sidenote.tex", "phenomenon_extra.tex", "joke.tex", "exercises.tex",
   "cartoon.tex", "imagefigure.tex"]

/-- Every fragment file name the chapter renderer touches. -/
def fragmentNames : List String :=
  ["title.tex", "summary.tex", "sidenote.tex", "historical.tex", "main.tex",
   "technical.tex", "topicmap.tex", "quote.tex", "phenomenon_extra.tex",
   "joke.tex", "exercises.tex", "cartoon.tex", "imagefigure.tex"]

/-- The chapter renderer reads the file system only through
`read_text_file`, `read_first_nonempty_line` and `fileExists` at its
chapter's fragment paths. -/
theorem chapterOutput_congr (fs1 fs2 : FS) (ch : ChapterRef)
    (hread : ∀ n ∈ fragmentNames,
      read_text_file fs1 (fragPath ch.directory n) =
        read_text_file fs2 (fragPath ch.directory n))
    (hfirst : ∀ n ∈ fragmentNames,
      read_first_nonempty_line fs1 (fragPath ch.directory n) =
        read_first_nonempty_line fs2 (fragPath ch.directory n))
    (hex : ∀ n ∈ optionalNames,
      fileExists fs1 (fragPath ch.directory n) =
        fileExists fs2 (fragPath ch.directory n)) :
    chapterOutput fs1 ch = chapterOutput fs2 ch := by
  have hinl : ∀ n ∈ fragmentNames,
      inline_tex_file fs1 (fragPath ch.directory n) =
        inline_tex_file fs2 (fragPath ch.directory n) := by
    intro n hn
    unfold inline_tex_file
    rw [hread n hn]
  simp only [chapterOutput, chapterPre, sidenotePage, chapterPost]
  rw [hinl "title.tex" (by decide), hinl "summary.tex" (by decide),
    hinl "sidenote.tex" (by decide), hinl "historical.tex" (by decide),
    hinl "main.tex" (by decide), hinl "technical.tex" (by decide),
    hinl "phenomenon_extra.tex" (by decide), hinl "joke.tex" (by decide),
    hinl "exercises.tex" (by decide), hinl "cartoon.tex" (by decide),
    hinl "imagefigure.tex" (by decide),
    hread "topicmap.tex" (by decide), hread "quote.tex" (by decide),
    hfirst "title.tex" (by decide), hfirst "summary.tex" (by decide),
    hex "sidenote.tex" (by decide), hex "phenomenon_extra.tex" (by decide),
    hex "joke.tex" (by decide), hex "exercises.tex" (by decide),
    hex "cartoon.tex" (by decide), hex "imagefigure.tex" (by decide)]

/-- The chapter renderer is determined by the file system's values on the
chapter's fragment paths. -/
theorem chapterOutput_agree (fs1 fs2 : FS) (ch : ChapterRef)
    (h : ∀ n ∈ fragmentNames,
      fs1 (fragPath ch.directory n) = fs2 (fragPath ch.directory n)) :
    chapterOutput fs1 ch = chapterOutput fs2 ch := by
  have hopt : ∀ n ∈ optionalNames, n ∈ fragmentNames := by decide
  exact chapterOutput_congr fs1 fs2 ch
    (fun n hn => by unfold read_text_file; rw [h n hn])
    (fun n hn => by unfold read_first_nonempty_line; rw [h n hn])
    (fun n hn => by unfold fileExists; rw [h n (hopt n hn)])

/-- C6: a missing (or unreadable) required fragment — title, summary, main
or technical — reads as the empty string and is inlined as the empty block;
the chapter renders exactly as if the file existed with empty content (the
run completes, no exception is modelled because every embedded function is
total, and nothing is emitted for the gap); and changing that one file in
no way affects the rendering of any chapter with a different directory. -/
theorem missing_required_fragment (fs : FS) (ch : ChapterRef) (name : String)
    (hname : name = "title.tex" ∨ name = "summary.tex" ∨ name = "main.tex" ∨
      name = "technical.tex")
    (hmiss : fs (fragPath ch.directory name) = none) :
    read_text_file fs (fragPath ch.directory name) = "" ∧
    inline_tex_file fs (fragPath ch.directory name) = "" ∧
    chapterOutput fs ch =
      chapterOutput
        (fun q => if q = fragPath ch.directory name then some "" else fs q) ch ∧
    (∀ fs2 : FS, ∀ ch2 : ChapterRef,
      (∀ q, q ≠ fragPath ch.directory name → fs2 q = fs q) →
      ch2.directory ≠ ch.directory →
      chapterOutput fs2 ch2 = chapterOutput fs ch2) := by
  have hread0 : read_text_file fs (fragPath ch.directory name) = "" := by
    unfold read_text_file
    rw [hmiss]
    rfl
  have hinl0 : inline_tex_file fs (fragPath ch.directory name) = "" := by
    unfold inline_tex_file
    rw [hread0]
    simp
  have hnslash : ('/' : Char) ∉ name.data := by
    rcases hname with rfl | rfl | rfl | rfl <;> decide
  have hfragslash : ∀ n ∈ fragmentNames, ('/' : Char) ∉ n.data := by decide
  have hnotopt : name ∉ optionalNames := by
    rcases hname with rfl | rfl | rfl | rfl <;> decide
  refine ⟨hread0, hinl0, ?_, ?_⟩
  · apply chapterOutput_congr
    · intro n _
      by_cases hq : fragPath ch.directory n = fragPath ch.directory name
      · rw [hq]
        unfold read_text_file
        rw [hmiss]
        simp
      · unfold read_text_file
        simp [hq]
    · intro n _
      by_cases hq : fragPath ch.directory n = fragPath ch.directory name
      · rw [hq]
        unfold read_first_nonempty_line
        rw [hmiss]
        have hupd : (fun q => if q = fragPath ch.directory name then some "" else fs q)
            (fragPath ch.directory name) = some "" := by simp
        rw [hupd]
        rfl
      · unfold read_first_nonempty_line
        simp [hq]
    · intro n hn
      have hopt : ∀ m ∈ optionalNames, m ∈ fragmentNames := by decide
      have hq : fragPath ch.directory n ≠ fragPath ch.directory name := by
        intro he
        have hne := (fragPath_inj _ _ _ _ (hfragslash n (hopt n hn)) hnslash he).2
        exact hnotopt (hne ▸ hn)
      unfold fileExists
      simp [hq]
  · intro fs2 ch2 hagree hdir
    apply chapterOutput_agree
    intro n hn
    have hq : fragPath ch2.directory n ≠ fragPath ch.directory name := by
      intro he
      exact hdir (fragPath_inj _ _ _ _ (hfragslash n hn) hnslash he).1
    exact hagree _ hq

/-- Witness for `missing_required_fragment`: the empty file system and the
demo chapter, with the technical fragment missing. -/
theorem missing_required_fragment_witness :
    ("technical.tex" = "title.tex" ∨ "technical.tex" = "summary.tex" ∨
      "technical.tex" = "main.tex" ∨ "technical.tex" = "technical.tex") ∧
    wFs0 (fragPath "01_Demo" "technical.tex") = none ∧
    inline_tex_file wFs0 (fragPath "01_Demo" "technical.tex") = "" :=
  ⟨Or.inr (Or.inr (Or.inr rfl)), rfl,
    (missing_required_fragment wFs0 wCh0 "technical.tex"
      (Or.inr (Or.inr (Or.inr rfl))) rfl).2.1⟩

/-- Every path `generate_flattened` may read for a given root document:
the three front-matter files considered by `inline_if_root_input` and each
parsed chapter's fragment files. -/
def readPaths (content : String) : List String :=
  ["intro.tex", "prologue.tex", "titlepage.tex"] ++
  (parse_main_for_chapters content).2.flatMap
    (fun ch => fragmentNames.map (fun n => fragPath ch.directory n))

/-- `inline_if_root_input` reads only the three front-matter files. -/
theorem inline_if_root_input_congr (fs1 fs2 : FS) (line : String)
    (h : ∀ p ∈ (["intro.tex", "prologue.tex", "titlepage.tex"] : List String),
      fs1 p = fs2 p) :
    inline_if_root_input fs1 line = inline_if_root_input fs2 line := by
  unfold inline_if_root_input
  cases inputLineMatch (strip line.data) with
  | none => rfl
  | some nameChars =>
    by_cases hp : String.mk nameChars = "preamble"
    · simp [hp]
    · by_cases hf : String.mk nameChars ∈ frontMatterNames
      · have hcontent : read_text_file fs1 (String.mk nameChars ++ ".tex") =
            read_text_file fs2 (String.mk nameChars ++ ".tex") := by
          unfold read_text_file
          simp only [frontMatterNames, List.mem_cons, List.not_mem_nil,
            or_false] at hf
          rcases hf with hf | hf | hf <;> rw [hf] <;> rw [h _ (by decide)]
        simp [hp, hf, hcontent]
      · simp [hp, hf]

/-- Congruence for `List.flatMap` under pointwise equality on members. -/
theorem list_flatMap_congr {α β : Type} (f g : α → List β) (l : List α)
    (h : ∀ a ∈ l, f a = g a) : l.flatMap f = l.flatMap g := by
  induction l with
  | nil => rfl
  | cons a t ih =>
    simp only [List.flatMap_cons]
    rw [h a (by simp), ih (fun x hx => h x (by simp [hx]))]

/-- Membership is preserved by `insertChapter`. -/
theorem insertChapter_mem (c d : ChapterRef) (l : List ChapterRef) :
    d ∈ insertChapter c l ↔ d = c ∨ d ∈ l := by
  induction l with
  | nil => simp [insertChapter]
  | cons e es ih =>
    unfold insertChapter
    by_cases hle : c.lineIndex ≤ e.lineIndex
    · simp [hle, List.mem_cons]
    · simp only [hle, if_false, List.mem_cons, ih]
      tauto

/-- Membership is preserved by `sortChapters`. -/
theorem sortChapters_mem (c : ChapterRef) (l : List ChapterRef) :
    c ∈ sortChapters l ↔ c ∈ l := by
  induction l with
  | nil => simp [sortChapters]
  | cons e es ih =>
    unfold sortChapters
    rw [insertChapter_mem, ih, List.mem_cons]

/-- The flattener's output is a function of the file contents at
`readPaths` only: two file systems agreeing there produce identical
output. -/
theorem generate_flattened_agree (fs1 fs2 : FS) (content : String)
    (h : ∀ p ∈ readPaths content, fs1 p = fs2 p) :
    generate_flattened fs1 content = generate_flattened fs2 content := by
  have hfront : ∀ p ∈ (["intro.tex", "prologue.tex", "titlepage.tex"] :
      List String), fs1 p = fs2 p := by
    intro p hp
    apply h
    unfold readPaths
    exact List.mem_append_left _ hp
  have hch : ∀ ch ∈ (parse_main_for_chapters content).2,
      chapterOutput fs1 ch = chapterOutput fs2 ch := by
    intro ch hc
    apply chapterOutput_agree
    intro n hn
    apply h
    unfold readPaths
    refine List.mem_append_right _ ?_
    rw [List.mem_flatMap]
    exact ⟨ch, hc, List.mem_map.mpr ⟨n, hn, rfl⟩⟩
  have h1 : (parse_main_for_chapters content).1.map
        (fun line => (inline_if_root_input fs1 line).getD line) =
      (parse_main_for_chapters content).1.map
        (fun line => (inline_if_root_input fs2 line).getD line) :=
    List.map_congr_left
      (fun line _ => by rw [inline_if_root_input_congr fs1 fs2 line hfront])
  have h2 : (sortChapters (parse_main_for_chapters content).2).flatMap
        (fun ch => chapterOutput fs1 ch) =
      (sortChapters (parse_main_for_chapters content).2).flatMap
        (fun ch => chapterOutput fs2 ch) :=
    list_flatMap_congr _ _ _
      (fun ch hc => hch ch ((sortChapters_mem ch _).1 hc))
  simp only [generate_flattened]
  rw [h1, h2]

/-- C8: re-running the flattener with the same root document and unchanged
fragment files yields byte-identical output.  First conjunct: the output
depends only on the contents of the files the run reads (fragments are read
fresh, nothing else influences the result); second conjunct: a second run
performed after the first run's output has been written to a path the
flattener does not read reproduces the first run's bytes exactly. -/
theorem flattener_rerun_identical (fs : FS) (content out : String)
    (hout : out ∉ readPaths content) :
    (∀ fs2 : FS, (∀ p ∈ readPaths content, fs2 p = fs p) →
      generate_flattened fs2 content = generate_flattened fs content) ∧
    generate_flattened
      (fun q => if q = out then some (generate_flattened fs content) else fs q)
      content = generate_flattened fs content := by
  constructor
  · intro fs2 h2
    exact generate_flattened_agree fs2 fs content h2
  · apply generate_flattened_agree
    intro p hp
    have hne : p ≠ out := fun he => hout (he ▸ hp)
    simp [hne]

/-- Witness for `flattener_rerun_identical`: a one-line root document with
no chapters, the empty file system, and the default output name. -/
theorem flattener_rerun_identical_witness :
    ("main_flat.tex" ∉ readPaths "hello") ∧
    generate_flattened
      (fun q => if q = "main_flat.tex" then some (generate_flattened wFs0 "hello")
        else wFs0 q) "hello" = generate_flattened wFs0 "hello" :=
  ⟨by decide,
    (flattener_rerun_identical wFs0 "hello" "main_flat.tex" (by decide)).2⟩

end FlattenBook

namespace CompileRealtime

open BookUtils

/-- A decimal digit is not whitespace. -/
theorem digit_not_whitespace (c : Char) (h : c.isDigit = true) :
    c.isWhitespace = false := by
  by_contra hw
  rw [Bool.not_eq_false] at hw
  simp only [Char.isWhitespace, Bool.or_eq_true, decide_eq_true_eq] at hw
  rcases hw with ((h1 | h1) | h1) | h1 <;> subst h1 <;> exact absurd h (by decide)

/-- An ASCII letter is not whitespace. -/
theorem alpha_not_whitespace (c : Char) (h : isAsciiAlpha c = true) :
    c.isWhitespace = false := by
  by_contra hw
  rw [Bool.not_eq_false] at hw
  simp only [Char.isWhitespace, Bool.or_eq_true, decide_eq_true_eq] at hw
  rcases hw with ((h1 | h1) | h1) | h1 <;> subst h1 <;> exact absurd h (by decide)

/-- C9: the monitor's mystery-string pattern flags `"7showTitle"` and does
not flag `"7 shows Title"`; and every line it flags is a whole line made of
a nonempty run of digits immediately followed by nonempty identifier text
(ASCII letters), with no whitespace anywhere in the line. -/
theorem mystery_string_detector (s : String) :
    mysteryMatch "7showTitle" = true ∧
    mysteryMatch "7 shows Title" = false ∧
    (mysteryMatch s = true →
      ∃ ds ts : List Char, s.data = ds ++ ts ∧ ds ≠ [] ∧
        (∀ c ∈ ds, c.isDigit = true) ∧ ts ≠ [] ∧
        (∀ c ∈ ts, isAsciiAlpha c = true) ∧
        ∀ c ∈ s.data, c.isWhitespace = false) := by
  refine ⟨by decide, by decide, fun h => ?_⟩
  unfold mysteryMatch at h
  by_cases hds : (s.data.takeWhile Char.isDigit).isEmpty = true
  · simp [hds] at h
  · rw [if_neg hds] at h
    split at h
    case _ rest hdrop =>
      rw [Bool.and_eq_true] at h
      obtain ⟨hne, hall⟩ := h
      have hrest : ∀ c ∈ rest, isAsciiAlpha c = true := by
        intro c hc
        have := List.all_eq_true.mp hall c hc
        simpa using this
      refine ⟨s.data.takeWhile Char.isDigit,
        's' :: 'h' :: 'o' :: 'w' :: rest, ?_, ?_, ?_, ?_, ?_, ?_⟩
      · rw [← hdrop]
        exact (List.takeWhile_append_dropWhile Char.isDigit s.data).symm
      · simpa using hds
      · intro c hc
        exact List.mem_takeWhile_imp hc
      · simp
      · intro c hc
        simp only [List.mem_cons] at hc
        rcases hc with rfl | rfl | rfl | rfl | hc
        · decide
        · decide
        · decide
        · decide
        · exact hrest c hc
      · intro c hc
        rw [← List.takeWhile_append_dropWhile Char.isDigit s.data,
          List.mem_append] at hc
        rcases hc with hc | hc
        · exact digit_not_whitespace c (List.mem_takeWhile_imp hc)
        · rw [hdrop] at hc
          simp only [List.mem_cons] at hc
          rcases hc with rfl | rfl | rfl | rfl | hc
          · decide
          · decide
          · decide
          · decide
          · exact alpha_not_whitespace c (hrest c hc)
    case _ => simp at h

/-- Witness for `mystery_string_detector` at the flagged line
`"42showBox"`. -/
theorem mystery_string_detector_witness :
    mysteryMatch "42showBox" = true ∧
    ∃ ds ts : List Char, "42showBox".data = ds ++ ts ∧ ds ≠ [] ∧
      (∀ c ∈ ds, c.isDigit = true) ∧ ts ≠ [] ∧
      (∀ c ∈ ts, isAsciiAlpha c = true) ∧
      ∀ c ∈ "42showBox".data, c.isWhitespace = false :=
  ⟨by decide, (mystery_string_detector "42showBox").2.2 (by decide)⟩

end CompileRealtime


namespace ChapterSubset

open BookUtils

/-! Embedding of `utils/generate_chapter_subset.py`
(`ChapterExtractor.parse_main_tex` and
`ChapterExtractor.parse_chapter_spec`).  The source reads the root document
with `f.readlines()`; since every predicate applied to a line (token
containment, comment check, the directive regex, the `%(.+)$` comment
capture) is insensitive to the trailing newline `readlines` keeps, lines
are modelled as the pieces of a split on `'\n'`.  A `None` result models
the `TypeError` the Python code raises when either the first un-commented
directive line or the `\end{document}` line is missing (comparing `None`
with an `int`). -/

/-- One entry of `self.chapters` in `parse_main_tex`. -/
structure ChapterEntry where
  number : Option Nat
  label : String
  directory : String
  chapterLine : String
  inputstoryLine : Option String
  comment : String
  lineIndex : Nat
  deriving DecidableEq

/-- Attempt of the subset generator's regex
`\\chapterwithsummaryfromfile\[([^\]]+)\]\{([^\}]+)\}` right after the
token: here the bracketed label is mandatory, unlike the flattener's
regex. -/
def subsetTailMatch (l : List Char) : Option (List Char × List Char) :=
  match l with
  | '[' :: rest =>
    match FlattenBook.takeUntil ']' rest with
    | some (lab, rest2) =>
      if lab.isEmpty then none
      else
        match rest2 with
        | '{' :: rest3 =>
          match FlattenBook.takeUntil '}' rest3 with
          | some (dir, _) => if dir.isEmpty then none else some (lab, dir)
          | none => none
        | _ => none
    | none => none
  | _ => none

/-- `re.search` of the subset generator's directive regex. -/
def subsetSearch : List Char → Option (List Char × List Char)
  | [] => none
  | c :: cs =>
    if tokenChars.isPrefixOf (c :: cs) then
      match subsetTailMatch ((c :: cs).drop tokenChars.length) with
      | some r => some r
      | none => subsetSearch cs
    else subsetSearch cs

/-- The subset generator's directive match on one line, as
`(label, directory)`. -/
def subsetDirectiveMatch (line : String) : Option (String × String) :=
  (subsetSearch line.data).map (fun r => (String.mk r.1, String.mk r.2))

/-- `re.match(r'(\d+)_', directory)`: the chapter number from a directory
name, when the name starts with digits followed by an underscore. -/
def dirNumber (dir : String) : Option Nat :=
  let ds := dir.data.takeWhile Char.isDigit
  if ds.isEmpty then none
  else
    match dir.data.dropWhile Char.isDigit with
    | '_' :: _ => some (natOfDigits ds)
    | _ => none

/-- `re.search(r'%(.+)$', line)`: the text after the first `%` that has at
least one character following it. -/
def commentAfterPercent : List Char → Option (List Char)
  | [] => none
  | '%' :: rest => if rest.isEmpty then none else some rest
  | _ :: rest => commentAfterPercent rest

/-- The `\inputstory` token looked for on the following line. -/
def inputstoryTok : List Char := "\\inputstory".data

/-- The body of one iteration of `parse_main_tex`'s extraction loop at line
`i` (`e` is the end index): an entry is recorded only when the line
contains the token, is not commented, and the full label-and-directory
regex matches. -/
def entryAt (lines : List String) (e i : Nat) : Option ChapterEntry :=
  let line := lines.getD i ""
  if containsToken line && !(isComment line) then
    match subsetDirectiveMatch line with
    | some (lab, dir) =>
      let nx :=
        if i + 1 < e then
          let next := lines.getD (i + 1) ""
          if containsSub inputstoryTok next.data then
            (some next,
              ((commentAfterPercent next.data).map
                (fun l => String.mk (strip l))).getD "")
          else (none, "")
        else (none, "")
      some ⟨dirNumber dir, lab, dir, line, nx.1, nx.2, i⟩
    | none => none
  else none

/-- Index of the first un-commented line containing the token. -/
def chapterStartIdx (lines : List String) : Option Nat :=
  lines.findIdx? (fun l => containsToken l && !(isComment l))

/-- The `\end{document}` token. -/
def endDocTok : List Char := "\\end\x7bdocument\x7d".data

/-- Index of the first line containing `\end{document}`. -/
def chapterEndIdx (lines : List String) : Option Nat :=
  lines.findIdx? (fun l => containsSub endDocTok l.data)

/-- The extraction loop over indices `s ≤ i < e`. -/
def extractChapters (lines : List String) (s e : Nat) : List ChapterEntry :=
  (List.range' s (e - s)).filterMap (fun i => entryAt lines e i)

/-- The line list `parse_main_tex` reads (`f.readlines()`, modelled without
the kept newlines, which none of the applied predicates see). -/
def readLinesOf (content : String) : List String :=
  (splitOnChar '\n' content.data).map String.mk

/-- `ChapterExtractor.parse_main_tex`: `(preamble, chapters, postamble)`,
or `none` for the `TypeError` path when a boundary is missing. -/
def parse_main_tex (content : String) :
    Option (List String × List ChapterEntry × List String) :=
  let lines := readLinesOf content
  match chapterStartIdx lines, chapterEndIdx lines with
  | some s, some e => some (lines.take s, extractChapters lines s e, lines.drop e)
  | _, _ => none

/-- Python `int(...)` on a split piece: surrounding whitespace stripped, an
optional leading `+` (a `-` cannot occur in a piece of a split on `-`),
then decimal digits. -/
def pyInt (l : List Char) : Option Nat :=
  let t := strip l
  let t2 := if t.head? = some '+' then t.tail else t
  if isDigitStr t2 then some (natOfDigits t2) else none

/-- One loop iteration of `parse_chapter_spec` on a raw comma-piece: a
range `a-b` when the piece contains `-` and starts with a digit, else a
number, else a case-insensitive substring match against the chapter
directories (chapter number 0 is falsy in Python and is skipped). -/
def partEval (chapters : List ChapterEntry) (rawPart : List Char) : List Nat :=
  let part := strip rawPart
  if part.contains '-' &&
      (match part with | c :: _ => c.isDigit | [] => false) then
    match splitOnChar '-' part with
    | [a, b] =>
      match pyInt a, pyInt b with
      | some x, some y => List.range' x (y + 1 - x)
      | _, _ => []
    | _ => []
  else if isDigitStr part then [natOfDigits part]
  else
    (chapters.filter (fun ch =>
      containsSub (part.map Char.toLower)
        (ch.directory.data.map Char.toLower))).filterMap
      (fun ch =>
        match ch.number with
        | some n => if n ≠ 0 then some n else none
        | none => none)

/-- Sorted duplicate-free insertion (for `sorted(set(selected))`). -/
def insertSorted (n : Nat) : List Nat → List Nat
  | [] => [n]
  | m :: ms =>
    if n < m then n :: m :: ms
    else if n = m then m :: ms
    else m :: insertSorted n ms

/-- `sorted(set(l))`: strictly sorted list with the same members. -/
def sortedDedup (l : List Nat) : List Nat := l.foldr insertSorted []

/-- `ChapterExtractor.parse_chapter_spec`. -/
def parse_chapter_spec (chapters : List ChapterEntry) (spec : String) :
    List Nat :=
  sortedDedup ((splitOnChar ',' spec.data).flatMap (partEval chapters))

/-- Spec-side validity of a stripped piece: a nonempty digit string, or
digits, a dash and digits. -/
def isRangeStr (l : List Char) : Bool :=
  !(l.takeWhile Char.isDigit).isEmpty &&
    (match l.dropWhile Char.isDigit with
     | '-' :: rest => isDigitStr rest
     | _ => false)

/-- The low endpoint of a range piece. -/
def rangeLo (l : List Char) : Nat := natOfDigits (l.takeWhile Char.isDigit)

/-- The high endpoint of a range piece. -/
def rangeHi (l : List Char) : Nat :=
  natOfDigits
    (match l.dropWhile Char.isDigit with
     | '-' :: rest => rest
     | _ => [])

/-- Spec-side denotation of a valid piece, following the spec's words: the
individual number, or the integers of the range with both endpoints
included. -/
def specPartSet (part : List Char) (n : Nat) : Prop :=
  (isDigitStr part = true ∧ n = natOfDigits part) ∨
  (isRangeStr part = true ∧ rangeLo part ≤ n ∧ n ≤ rangeHi part)

instance (part : List Char) (n : Nat) : Decidable (specPartSet part n) := by
  unfold specPartSet
  infer_instance

/-- Membership after sorted-dedup insertion. -/
theorem insertSorted_mem (n m : Nat) (l : List Nat) :
    m ∈ insertSorted n l ↔ m = n ∨ m ∈ l := by
  induction l with
  | nil => simp [insertSorted]
  | cons a t ih =>
    unfold insertSorted
    by_cases h1 : n < a
    · rw [if_pos h1]
      simp only [List.mem_cons]
    · by_cases h2 : n = a
      · rw [if_neg h1, if_pos h2]
        simp only [List.mem_cons]
        subst h2
        tauto
      · rw [if_neg h1, if_neg h2]
        simp only [List.mem_cons, ih]
        tauto

/-- Insertion preserves strict sortedness. -/
theorem insertSorted_pairwise (n : Nat) (l : List Nat)
    (h : List.Pairwise (· < ·) l) :
    List.Pairwise (· < ·) (insertSorted n l) := by
  induction l with
  | nil => simp [insertSorted]
  | cons a t ih =>
    rw [List.pairwise_cons] at h
    obtain ⟨ha, ht⟩ := h
    unfold insertSorted
    by_cases h1 : n < a
    · rw [if_pos h1, List.pairwise_cons]
      refine ⟨fun b hb => ?_, ?_⟩
      · rcases List.mem_cons.mp hb with rfl | hb
        · exact h1
        · exact lt_trans h1 (ha b hb)
      · rw [List.pairwise_cons]
        exact ⟨ha, ht⟩
    · by_cases h2 : n = a
      · rw [if_neg h1, if_pos h2, List.pairwise_cons]
        exact ⟨ha, ht⟩
      · rw [if_neg h1, if_neg h2, List.pairwise_cons]
        refine ⟨fun b hb => ?_, ih ht⟩
        rcases (insertSorted_mem n b t).mp hb with rfl | hb
        · omega
        · exact ha b hb

/-- `sortedDedup` keeps exactly the members of its input. -/
theorem sortedDedup_mem (l : List Nat) (n : Nat) :
    n ∈ sortedDedup l ↔ n ∈ l := by
  induction l with
  | nil => simp [sortedDedup]
  | cons a t ih =>
    rw [show sortedDedup (a :: t) = insertSorted a (sortedDedup t) from rfl,
      insertSorted_mem, ih, List.mem_cons]

/-- `sortedDedup` is strictly sorted (hence duplicate-free). -/
theorem sortedDedup_pairwise (l : List Nat) :
    List.Pairwise (· < ·) (sortedDedup l) := by
  induction l with
  | nil => simp [sortedDedup]
  | cons a t ih => exact insertSorted_pairwise a _ ih

/-- `dropWhile` is the identity when no element satisfies the predicate. -/
theorem dropWhile_eq_self_of_not (p : Char → Bool) (l : List Char)
    (h : ∀ c ∈ l, p c = false) : l.dropWhile p = l := by
  cases l with
  | nil => rfl
  | cons a t =>
    rw [List.dropWhile_cons, h a (by simp)]
    simp

/-- `strip` is the identity on whitespace-free strings. -/
theorem strip_eq_self (l : List Char) (h : ∀ c ∈ l, c.isWhitespace = false) :
    strip l = l := by
  unfold strip
  rw [dropWhile_eq_self_of_not _ l h,
    dropWhile_eq_self_of_not _ l.reverse
      (fun c hc => h c (List.mem_reverse.mp hc)),
    List.reverse_reverse]

/-- A digit string contains no dash. -/
theorem digits_no_dash (l : List Char) (h : ∀ c ∈ l, c.isDigit = true) :
    l.contains '-' = false := by
  by_contra hc
  rw [Bool.not_eq_false] at hc
  have hm : ('-' : Char) ∈ l := List.elem_iff.mp hc
  exact absurd (h '-' hm) (by decide)

/-- `pyInt` on a digit string returns its value. -/
theorem pyInt_digits (l : List Char) (h : isDigitStr l = true) :
    pyInt l = some (natOfDigits l) := by
  unfold isDigitStr at h
  rw [Bool.and_eq_true] at h
  obtain ⟨hne, hall⟩ := h
  have hdig : ∀ c ∈ l, c.isDigit = true := fun c hc => List.all_eq_true.mp hall c hc
  have hstrip : strip l = l :=
    strip_eq_self l
      (fun c hc => CompileRealtime.digit_not_whitespace c (hdig c hc))
  have hhead : ¬(l.head? = some '+') := by
    cases l with
    | nil => simp
    | cons a t =>
      simp only [List.head?, Option.some.injEq]
      intro he
      subst he
      exact absurd (hdig '+' (by simp)) (by decide)
  simp only [pyInt, hstrip]
  rw [if_neg hhead,
    if_pos (by unfold isDigitStr; rw [Bool.and_eq_true]; exact ⟨hne, hall⟩)]

/-- Decomposition of a valid range piece. -/
theorem range_decomp (p : List Char) (hr : isRangeStr p = true) :
    ∃ rest, p.dropWhile Char.isDigit = '-' :: rest ∧ isDigitStr rest = true ∧
      (p.takeWhile Char.isDigit).isEmpty = false := by
  unfold isRangeStr at hr
  rw [Bool.and_eq_true] at hr
  obtain ⟨h1, h2⟩ := hr
  split at h2
  next rest heq => exact ⟨rest, heq, h2, by simpa using h1⟩
  next => exact absurd h2 (by decide)

/-- Splitting a list not containing the separator. -/
theorem splitOnChar_not_mem (c : Char) (l : List Char) (h : c ∉ l) :
    splitOnChar c l = [l] := by
  induction l with
  | nil => rfl
  | cons a t ih =>
    unfold splitOnChar
    have hac : ¬(a = c) := fun he => h (he ▸ List.mem_cons_self a t)
    rw [if_neg hac, ih (fun hm => h (List.mem_cons_of_mem a hm))]

/-- Splitting around one separator occurrence. -/
theorem splitOnChar_append (c : Char) (a b : List Char) (h : c ∉ a) :
    splitOnChar c (a ++ c :: b) = a :: splitOnChar c b := by
  induction a with
  | nil =>
    simp only [List.nil_append]
    rw [splitOnChar]
    simp
  | cons x xs ih =>
    have hxc : ¬(x = c) := fun he => h (he ▸ List.mem_cons_self x xs)
    have hxs : c ∉ xs := fun hm => h (List.mem_cons_of_mem x hm)
    simp only [List.cons_append]
    rw [splitOnChar, ih hxs]
    simp [hxc]

/-- Evaluation of one comma-piece of a spec whose stripped form is a valid
number or range: its contributed chapter numbers are exactly the spec-side
denotation. -/
theorem partEval_eval (chapters : List ChapterEntry) (r : List Char)
    (hq : isDigitStr (strip r) = true ∨ isRangeStr (strip r) = true)
    (n : Nat) :
    n ∈ partEval chapters r ↔ specPartSet (strip r) n := by
  simp only [partEval]
  rcases hq with hd | hr
  · have hdig : ∀ c ∈ strip r, c.isDigit = true := by
      unfold isDigitStr at hd
      rw [Bool.and_eq_true] at hd
      exact fun c hc => List.all_eq_true.mp hd.2 c hc
    have hnodash : (strip r).contains '-' = false := digits_no_dash _ hdig
    have hdw : (strip r).dropWhile Char.isDigit = [] := by
      rw [List.dropWhile_eq_nil_iff]
      exact fun x hx => hdig x hx
    have hrange : isRangeStr (strip r) = false := by
      unfold isRangeStr
      rw [hdw]
      simp
    rw [hnodash]
    simp only [Bool.false_and, Bool.false_eq_true, if_false, hd, if_true,
      List.mem_singleton]
    unfold specPartSet
    rw [hd, hrange]
    simp
  · obtain ⟨rest, hsplit, hrest, hne⟩ := range_decomp _ hr
    have hds_all : ∀ c ∈ (strip r).takeWhile Char.isDigit, c.isDigit = true :=
      fun c hc => List.mem_takeWhile_imp hc
    have hrest_all : ∀ c ∈ rest, c.isDigit = true := by
      unfold isDigitStr at hrest
      rw [Bool.and_eq_true] at hrest
      exact fun c hc => List.all_eq_true.mp hrest.2 c hc
    have hq_eq : strip r =
        (strip r).takeWhile Char.isDigit ++ '-' :: rest := by
      conv_lhs => rw [← List.takeWhile_append_dropWhile Char.isDigit (strip r)]
      rw [hsplit]
    have hmem : ('-' : Char) ∈ strip r := by
      rw [hq_eq]
      exact List.mem_append_right _ (List.mem_cons_self '-' rest)
    have hcont : (strip r).contains '-' = true := List.elem_iff.mpr hmem
    have hqd : isDigitStr (strip r) = false := by
      by_contra hq2
      rw [Bool.not_eq_false] at hq2
      unfold isDigitStr at hq2
      rw [Bool.and_eq_true] at hq2
      exact absurd (List.all_eq_true.mp hq2.2 '-' hmem) (by decide)
    have hhead : (match strip r with | c :: _ => c.isDigit | [] => false) = true := by
      cases hds : (strip r).takeWhile Char.isDigit with
      | nil => rw [hds] at hne; simp at hne
      | cons d ds =>
        have hshape : strip r = d :: (ds ++ '-' :: rest) := by
          rw [hq_eq, hds]
          rfl
        rw [hshape]
        exact hds_all d (by rw [hds]; exact List.mem_cons_self d ds)
    have hdashfree : ('-' : Char) ∉ (strip r).takeWhile Char.isDigit := by
      intro hm
      exact absurd (hds_all '-' hm) (by decide)
    have hdashfree2 : ('-' : Char) ∉ rest := by
      intro hm
      exact absurd (hrest_all '-' hm) (by decide)
    have hsplitlist : splitOnChar '-' (strip r) =
        [(strip r).takeWhile Char.isDigit, rest] := by
      conv_lhs => rw [hq_eq]
      rw [splitOnChar_append '-' _ _ hdashfree,
        splitOnChar_not_mem '-' rest hdashfree2]
    have htw_digit : isDigitStr ((strip r).takeWhile Char.isDigit) = true := by
      unfold isDigitStr
      rw [Bool.and_eq_true]
      refine ⟨?_, List.all_eq_true.mpr hds_all⟩
      rw [hne]
      rfl
    rw [hcont, hhead]
    simp only [Bool.and_self, if_true, hsplitlist, pyInt_digits _ htw_digit,
      pyInt_digits _ hrest, List.mem_range'_1]
    unfold specPartSet rangeLo rangeHi
    rw [hsplit, hqd, hr]
    simp only [Bool.false_eq_true, false_and, false_or, true_and]
    omega

/-- C3: for a chapter specification whose comma-pieces (after stripping)
are all valid numbers or valid ranges, `parse_chapter_spec` returns
exactly the strictly sorted (hence duplicate-free) enumeration of the union
of the individual numbers and of the integers of each range, endpoints
included. -/
theorem parse_chapter_spec_sorted_union (chapters : List ChapterEntry)
    (spec : String)
    (hvalid : ∀ part ∈ (splitOnChar ',' spec.data).map strip,
      isDigitStr part = true ∨ isRangeStr part = true) :
    List.Pairwise (· < ·) (parse_chapter_spec chapters spec) ∧
    ∀ n, n ∈ parse_chapter_spec chapters spec ↔
      ∃ part ∈ (splitOnChar ',' spec.data).map strip, specPartSet part n := by
  constructor
  · exact sortedDedup_pairwise _
  · intro n
    unfold parse_chapter_spec
    rw [sortedDedup_mem, List.mem_flatMap]
    constructor
    · rintro ⟨r, hrm, hn⟩
      have hps : strip r ∈ (splitOnChar ',' spec.data).map strip :=
        List.mem_map.mpr ⟨r, hrm, rfl⟩
      exact ⟨strip r, hps, (partEval_eval chapters r (hvalid _ hps) n).mp hn⟩
    · rintro ⟨p, hp, hn⟩
      obtain ⟨r, hrm, rfl⟩ := List.mem_map.mp hp
      exact ⟨r, hrm, (partEval_eval chapters r (hvalid _ hp) n).mpr hn⟩

/-- Witness for `parse_chapter_spec_sorted_union` on the specification
`"3,1-2,2"` with no chapters: validity holds and the result is the sorted
deduplicated set. -/
theorem parse_chapter_spec_sorted_union_witness :
    (∀ part ∈ (splitOnChar ',' "3,1-2,2".data).map strip,
      isDigitStr part = true ∨ isRangeStr part = true) ∧
    List.Pairwise (· < ·) (parse_chapter_spec [] "3,1-2,2") ∧
    parse_chapter_spec [] "3,1-2,2" = [1, 2, 3] :=
  ⟨by decide,
    (parse_chapter_spec_sorted_union [] "3,1-2,2" (by decide)).1,
    by decide⟩

/-- Whether the directive token immediately followed by `[` occurs
anywhere in a line: the condition without which the subset generator's
regex (whose bracketed label group is mandatory) cannot match. -/
def tokenBracket : List Char → Bool
  | [] => false
  | c :: cs =>
    (tokenChars.isPrefixOf (c :: cs) &&
      (match (c :: cs).drop tokenChars.length with
       | '[' :: _ => true
       | _ => false)) || tokenBracket cs

/-- Without a `[` right after some token occurrence, the subset regex finds
no match. -/
theorem subsetSearch_no_bracket (l : List Char)
    (h : tokenBracket l = false) : subsetSearch l = none := by
  induction l with
  | nil => rfl
  | cons c cs ih =>
    unfold tokenBracket at h
    rw [Bool.or_eq_false_iff] at h
    obtain ⟨h1, h2⟩ := h
    unfold subsetSearch
    by_cases hp : tokenChars.isPrefixOf (c :: cs) = true
    · rw [if_pos hp]
      rw [hp, Bool.true_and] at h1
      have hnone : subsetTailMatch ((c :: cs).drop tokenChars.length) = none := by
        cases hd : (c :: cs).drop tokenChars.length with
        | nil => rfl
        | cons d ds =>
          rw [hd] at h1
          unfold subsetTailMatch
          split
          next rest heq =>
            rw [List.cons.injEq] at heq
            rw [heq.1] at h1
            simp at h1
          next => rfl
      rw [hnone]
      exact ih h2
    · rw [if_neg hp]
      exact ih h2

/-- A line on which the subset regex fails contributes no entry. -/
theorem entryAt_eq_none (lines : List String) (e i : Nat)
    (h : subsetDirectiveMatch (lines.getD i "") = none) :
    entryAt lines e i = none := by
  simp only [entryAt, h]
  split <;> rfl

/-- Every produced entry records the index of the line it came from. -/
theorem entryAt_lineIndex (lines : List String) (e i : Nat)
    (ent : ChapterEntry) (h : entryAt lines e i = some ent) :
    ent.lineIndex = i := by
  simp only [entryAt] at h
  split at h
  · split at h
    next lab dir heq =>
      rw [Option.some.injEq] at h
      rw [← h]
    next => exact absurd h (by simp)
  · exact absurd h (by simp)

/-- C10: a root-document line that contains the chapter directive token but
never the token immediately followed by a bracketed label cannot match the
subset generator's regex (whose label group is mandatory), so
`parse_main_tex` records no chapter entry originating from that line —
the chapter can never be selected or emitted by the subset generator. -/
theorem no_bracket_no_subset_entry (content : String) (i : Nat)
    (_htok : containsToken ((readLinesOf content).getD i "") = true)
    (hnb : tokenBracket ((readLinesOf content).getD i "").data = false) :
    subsetDirectiveMatch ((readLinesOf content).getD i "") = none ∧
    ∀ pre chs post, parse_main_tex content = some (pre, chs, post) →
      ∀ ent ∈ chs, ent.lineIndex ≠ i := by
  have hmatch : subsetDirectiveMatch ((readLinesOf content).getD i "") = none := by
    unfold subsetDirectiveMatch
    rw [subsetSearch_no_bracket _ hnb]
    rfl
  refine ⟨hmatch, ?_⟩
  intro pre chs post hp ent hent hix
  simp only [parse_main_tex] at hp
  cases hs : chapterStartIdx (readLinesOf content) with
  | none => rw [hs] at hp; simp at hp
  | some sIdx =>
    cases he : chapterEndIdx (readLinesOf content) with
    | none => rw [hs, he] at hp; simp at hp
    | some eIdx =>
      rw [hs, he] at hp
      rw [Option.some.injEq, Prod.mk.injEq, Prod.mk.injEq] at hp
      obtain ⟨-, hchs, -⟩ := hp
      rw [← hchs] at hent
      obtain ⟨j, hj, hje⟩ := List.mem_filterMap.mp hent
      have hjidx := entryAt_lineIndex _ _ _ _ hje
      rw [hix] at hjidx
      subst hjidx
      rw [entryAt_eq_none _ _ _ hmatch] at hje
      exact absurd hje (by simp)

/-- Witness input for `no_bracket_no_subset_entry`: a directive line with a
braced directory but no bracketed label, which the flattener's parser does
accept (its label is optional) while the subset generator records
nothing. -/
def wContentC10 : String :=
  "\\chapterwithsummaryfromfile\x7bdirx\x7d\n\\end\x7bdocument\x7d"

theorem no_bracket_no_subset_entry_witness :
    containsToken ((readLinesOf wContentC10).getD 0 "") = true ∧
    tokenBracket ((readLinesOf wContentC10).getD 0 "").data = false ∧
    subsetDirectiveMatch ((readLinesOf wContentC10).getD 0 "") = none ∧
    FlattenBook.flattenDirectiveMatch ((readLinesOf wContentC10).getD 0 "") =
      some (none, "dirx") :=
  ⟨by decide, by decide,
    (no_bracket_no_subset_entry wContentC10 0 (by decide) (by decide)).1,
    by decide⟩

end ChapterSubset